import Mathlib

/-!
Verification development for the LocalDesk repository (vakovalskii/LocalDesk).

The definitions in this file are a shallow embedding of the parts of the
source that the checked claims are about:

* `src/src/electron/session-manager.ts` — the subscription router
  (`SessionManager`): window registration, per-window session subscription,
  event fan-out (`emit`), and the desktop-notification decision.
* `src/src/electron/libs/tools/web-search.ts` — the Tavily and Z.AI
  web-search tools and their use of the shared web request cache.
* `src/unnamed/part_002` — `parseSkillMd`, the SKILL.md frontmatter parser.
* The Web Request Cache (`web-cache.ts`), `shouldNotifyForSession`
  (`notification-routing.ts`) and the File Change Ledger are referenced by
  the source but their implementation files are not part of the corpus;
  those parts are modelled from the specification and are marked
  `Modelled from the spec:` in their doc comments.

JavaScript `Map` objects are embedded as association lists (`List (κ × ν)`)
whose operations mirror `Map.get` / `Map.set` / `Map.delete`; JS string
truthiness (`if (!sessionId)`) is embedded explicitly (empty string is
falsy).
-/

namespace LocalDesk

/-! ### Association-list embedding of the JavaScript `Map` -/

variable {κ : Type} {ν : Type}

/-- `Map.get`: value of the first entry with the given key. -/
def assocGet [DecidableEq κ] : List (κ × ν) → κ → Option ν
  | [], _ => none
  | p :: ps, k => if p.1 = k then some p.2 else assocGet ps k

/-- `Map.set`: replace the entry with the given key in place, or append a
fresh entry when the key is absent. -/
def assocSet [DecidableEq κ] : List (κ × ν) → κ → ν → List (κ × ν)
  | [], k, v => [(k, v)]
  | p :: ps, k, v => if p.1 = k then (k, v) :: ps else p :: assocSet ps k v

/-- `Map.delete`: remove the first entry with the given key. -/
def assocDelete [DecidableEq κ] : List (κ × ν) → κ → List (κ × ν)
  | [], _ => []
  | p :: ps, k => if p.1 = k then ps else p :: assocDelete ps k

/-- In-place mutation of the value of an existing entry (what
`sub.sessionId = sessionId` does through the reference obtained from
`Map.get`); a missing key leaves the list unchanged. -/
def assocUpdate [DecidableEq κ] : List (κ × ν) → κ → ν → List (κ × ν)
  | [], _, _ => []
  | p :: ps, k, v => if p.1 = k then (k, v) :: ps else p :: assocUpdate ps k v

/-! ### Events (`src/src/electron/types.ts`, `ServerEvent`)

Each constructor is one variant of the `ServerEvent` discriminated union;
only payload fields the router reads are carried.  For `stream.message`,
the router passes `payload.message` through `extractResponseText`
(`notification-preview.ts`, not in the corpus); the embedding carries the
result of that extraction directly: `responseText = none` models a falsy
extraction result (`if (!text) return`). -/

inductive SessionStatus where
  | idle | running | completed | error
deriving DecidableEq, Repr

inductive ServerEvent where
  | streamMessage (sessionId : String) (responseText : Option String)
  | streamUserPrompt (sessionId : String)
  | sessionStatus (sessionId : String) (status : SessionStatus) (title : Option String)
  | sessionList
  | sessionHistory (sessionId : String)
  | sessionDeleted (sessionId : String)
  | permissionRequest (sessionId : String)
  | runnerError (sessionId : Option String)
  | settingsLoaded
  | modelsLoaded
  | modelsError
  | todosUpdated (sessionId : String)
  | fileChangesUpdated (sessionId : String)
  | fileChangesConfirmed (sessionId : String)
  | fileChangesRolledback (sessionId : String)
  | fileChangesError (sessionId : String)
  | threadList (sessionId : String)
  | taskCreated
  | taskStatus
  | taskError
deriving DecidableEq, Repr

/-- `SessionManager.getSessionId`: `"sessionId" in event.payload ?
payload.sessionId : null`. -/
def getSessionId : ServerEvent → Option String
  | .streamMessage sid _ => some sid
  | .streamUserPrompt sid => some sid
  | .sessionStatus sid _ _ => some sid
  | .sessionList => none
  | .sessionHistory sid => some sid
  | .sessionDeleted sid => some sid
  | .permissionRequest sid => some sid
  | .runnerError sid => sid
  | .settingsLoaded => none
  | .modelsLoaded => none
  | .modelsError => none
  | .todosUpdated sid => some sid
  | .fileChangesUpdated sid => some sid
  | .fileChangesConfirmed sid => some sid
  | .fileChangesRolledback sid => some sid
  | .fileChangesError sid => some sid
  | .threadList sid => some sid
  | .taskCreated => none
  | .taskStatus => none
  | .taskError => none

/-- Discriminates the `session.status` variant (`event.type ===
"session.status"`). -/
def isSessionStatus : ServerEvent → Bool
  | .sessionStatus _ _ _ => true
  | _ => false

/-- Discriminates the `stream.message` variant. -/
def isStreamMessage : ServerEvent → Bool
  | .streamMessage _ _ => true
  | _ => false

/-- Discriminates the `session.deleted` variant. -/
def isSessionDeleted : ServerEvent → Bool
  | .sessionDeleted _ => true
  | _ => false

/-- JS string truthiness applied to the extracted session id: the router's
`if (!sessionId)` treats both a missing id and the empty string as absent. -/
def truthyId : Option String → Option String
  | none => none
  | some s => if s = "" then none else some s

/-! ### Router state (`SessionManager`) -/

/-- The two mutable maps owned by `SessionManager`: `subscriptions`
(windowId → current session subscription, `none` = window not bound to a
session) and `latestResponses` (sessionId → latest assistant-visible
text).  The `webContents` handle held by each subscription entry is not
observable by any claim and is omitted. -/
structure RouterState where
  subscriptions : List (Nat × Option String)
  latestResponses : List (String × String)
deriving DecidableEq, Repr

/-- The freshly constructed `SessionManager` (both maps empty). -/
def RouterState.base : RouterState := ⟨[], []⟩

/-- `SessionManager.registerWindow`: store a subscription entry with
`sessionId: null` under the window's id. -/
def registerWindow (st : RouterState) (w : Nat) : RouterState :=
  { st with subscriptions := assocSet st.subscriptions w none }

/-- The `win.on("closed", ...)` cleanup installed by `registerWindow`:
delete the window's subscription entry. -/
def closeWindow (st : RouterState) (w : Nat) : RouterState :=
  { st with subscriptions := assocDelete st.subscriptions w }

/-- `SessionManager.setWindowSession`: look the window up; if a
subscription exists, overwrite its `sessionId` field; otherwise do
nothing (the function is total — no error is raised). -/
def setWindowSession (st : RouterState) (w : Nat) (sid : Option String) : RouterState :=
  if (assocGet st.subscriptions w).isSome then
    { st with subscriptions := assocUpdate st.subscriptions w sid }
  else st

/-- `SessionManager.getSessionWindows`: ids of all windows whose current
subscription strictly equals (`===`) the given session id. -/
def getSessionWindows (st : RouterState) (sid : String) : List Nat :=
  (st.subscriptions.filter (fun p => decide (p.2 = some sid))).map Prod.fst

/-- The ids of every registered window (the set `emitToAll` sends to). -/
def windowIds (st : RouterState) : List Nat :=
  st.subscriptions.map Prod.fst

/-- `SessionManager.getFocusedSessionId`: the subscription of the window
that currently has OS input focus; `none` when no window is focused, the
focused window is unregistered, or it is registered but unsubscribed
(`sub?.sessionId ?? null`).  Which window is focused is an input from the
windowing system, passed here as `focused`. -/
def getFocusedSessionId (st : RouterState) (focused : Option Nat) : Option String :=
  match focused with
  | none => none
  | some w =>
    match assocGet st.subscriptions w with
    | none => none
    | some sid => sid

/-- Modelled from the spec: `shouldNotifyForSession`
(`src/electron/libs/notification-routing.ts` is not in the corpus).  Per
the spec's notification policy: notify iff the session-status event
indicates `completed` or `error` and the event's session is not the
focused window's session (`payloadSessionId !== focusedSessionId`, where
the focused session is `null` when no window is focused or the focused
window is unsubscribed). -/
def shouldNotifyForSession (status : SessionStatus) (sessionId : String)
    (focusedSessionId : Option String) : Bool :=
  (decide (status = .completed) || decide (status = .error)) &&
    decide (focusedSessionId ≠ some sessionId)

/-- The `latestResponses` updates `emit` performs before routing:
`rememberLatestResponse` on `stream.message` (skipped when the extracted
text is falsy) and `latestResponses.delete` on `session.deleted`. -/
def updateLatest (st : RouterState) : ServerEvent → RouterState
  | .streamMessage sid txt =>
    match txt with
    | none => st
    | some t => { st with latestResponses := assocSet st.latestResponses sid t }
  | .sessionDeleted sid => { st with latestResponses := assocDelete st.latestResponses sid }
  | _ => st

/-- Everything observable about one `SessionManager.emit` call: the state
afterwards, the ids of the windows the event was sent to, whether a
desktop notification was raised (`sendNotification` reached), and whether
the "no windows subscribed" diagnostic (`console.warn`) was recorded. -/
structure EmitResult where
  state : RouterState
  delivered : List Nat
  notified : Bool
  droppedDiagnostic : Bool
deriving DecidableEq, Repr

/-- `SessionManager.emit` (src/src/electron/session-manager.ts lines
124-187).  `session.status` events go to every registered window via
`emitToAll` and drive the notification decision (`sendNotification` is
only reached when `payloadSessionId` is truthy).  Otherwise a falsy
extracted session id (`if (!sessionId)`) broadcasts through the caller's
`broadcastFunc` — modelled from the spec as delivery to every registered
window (`ipc-handlers.ts`, which supplies it, is not in the corpus) — and
a truthy id delivers to exactly `getSessionWindows`, recording a
diagnostic and delivering nothing when that set is empty.  The router
keeps no queue: an undelivered event leaves only the state returned
here. -/
def emit (st : RouterState) (e : ServerEvent) (focused : Option Nat) : EmitResult :=
  let st1 := updateLatest st e
  match e with
  | .sessionStatus sid status _title =>
    let doNotify :=
      shouldNotifyForSession status sid (getFocusedSessionId st1 focused) && decide (sid ≠ "")
    { state := st1, delivered := windowIds st1, notified := doNotify, droppedDiagnostic := false }
  | _ =>
    match truthyId (getSessionId e) with
    | none =>
      { state := st1, delivered := windowIds st1, notified := false, droppedDiagnostic := false }
    | some sid =>
      let targets := getSessionWindows st1 sid
      if targets.length = 0 then
        { state := st1, delivered := [], notified := false, droppedDiagnostic := true }
      else
        { state := st1, delivered := targets, notified := false, droppedDiagnostic := false }

/-! ### Router operation traces

Everything the outside world can do to the `SessionManager` singleton:
register a window, the window-closed cleanup, `setWindowSession`, and
`emit`.  The claim-side view `subscriptionSpecStep` below follows the
specification's wording and is compared with the code-side state by the
refinement theorem for claim C3. -/

inductive RouterOp where
  | register (w : Nat)
  | close (w : Nat)
  | setSession (w : Nat) (sid : Option String)
  | emitEvent (e : ServerEvent) (focused : Option Nat)

/-- One router operation applied to the router state. -/
def applyOp (st : RouterState) : RouterOp → RouterState
  | .register w => registerWindow st w
  | .close w => closeWindow st w
  | .setSession w sid => setWindowSession st w sid
  | .emitEvent e f => (emit st e f).state

/-- A trace of router operations run from a state. -/
def runOps (st : RouterState) (ops : List RouterOp) : RouterState :=
  ops.foldl applyOp st

/-- Claim-side view of window `w`'s subscription entry, following the
spec's words: the entry is created (unsubscribed) on `registerWindow`,
removed on window close, and its session field equals the `sessionId`
argument of the latest `setWindowSession` call for that window since
registration (`null` if none); `emit` never touches subscriptions.
`none` means "no entry"; `some s` means "one entry whose session field is
`s`". -/
def subscriptionSpecStep (w : Nat) (acc : Option (Option String)) :
    RouterOp → Option (Option String)
  | .register w' => if w' = w then some none else acc
  | .close w' => if w' = w then none else acc
  | .setSession w' sid => if w' = w then (if acc.isSome then some sid else acc) else acc
  | .emitEvent _ _ => acc

/-- The claim-side subscription of window `w` after a trace. -/
def subscriptionSpec (w : Nat) (ops : List RouterOp) : Option (Option String) :=
  ops.foldl (subscriptionSpecStep w) none

/-! ### Web Request Cache and the web-search tools -/

/-- Modelled from the spec: one entry of the Web Request Cache
(`src/electron/libs/web-cache.ts` is not in the corpus).  An entry keeps
the stored value, its insertion time and its `ttlMs`. -/
structure CacheEntry (α : Type) where
  value : α
  insertedAt : Nat
  ttlMs : Nat
deriving DecidableEq, Repr

/-- Modelled from the spec: the Web Request Cache is a single shared
process-wide keyspace (`webCache`), keyed by caller-constructed strings;
the cache component itself has no notion of task boundaries. -/
abbrev WebCache (α : Type) : Type := List (String × CacheEntry α)

/-- The empty shared cache. -/
def WebCache.base {α : Type} : WebCache α := []

/-- Modelled from the spec: `set(key, value, ttlMs)` stores the value with
the insertion time `now`; last write wins per key. -/
def WebCache.set {α : Type} (c : WebCache α) (k : String) (v : α) (ttlMs now : Nat) :
    WebCache α :=
  assocSet c k ⟨v, now, ttlMs⟩

/-- Modelled from the spec: `get(key)` at time `now`; entries expire
lazily, checked on `get`, based on `ttlMs` from insertion — an entry
strictly younger than its `ttlMs` is a hit, anything else (including an
absent key) is a miss. -/
def WebCache.get {α : Type} (c : WebCache α) (k : String) (now : Nat) : Option α :=
  match assocGet c k with
  | none => none
  | some e => if now - e.insertedAt < e.ttlMs then some e.value else none

/-- The cache key built by `TavilyWebSearch.search`:
`search:tavily:<query>:<max_results>`. -/
def tavilyCacheKey (query : String) (maxResults : Nat) : String :=
  "search:tavily:" ++ query ++ ":" ++ toString maxResults

/-- The cache key built by `ZaiWebSearch.search`:
`search:zai:<query>:<max_results>`. -/
def zaiCacheKey (query : String) (maxResults : Nat) : String :=
  "search:zai:" ++ query ++ ":" ++ toString maxResults

/-- `TavilyWebSearch.search` (src/src/electron/libs/tools/web-search.ts
lines 64-102), abstracted over the network: `fetched` is the result list
the Tavily API call would produce.  The function looks the shared cache
up first and returns a hit unchanged; on a miss it returns the fetched
results and caches them for 5 minutes.  It receives no task policy: there
is no `shareWebCache` input anywhere in its code path. -/
def tavilySearch {α : Type} (cache : WebCache α) (now : Nat) (query : String)
    (maxResults : Nat) (fetched : α) : α × WebCache α :=
  match WebCache.get cache (tavilyCacheKey query maxResults) now with
  | some cached => (cached, cache)
  | none =>
    (fetched, WebCache.set cache (tavilyCacheKey query maxResults) fetched (5 * 60 * 1000) now)

/-- `ZaiWebSearch.search` (src/src/electron/libs/tools/web-search.ts lines
126-178), abstracted over the network exactly like `tavilySearch`; only
the cache key prefix differs. -/
def zaiSearch {α : Type} (cache : WebCache α) (now : Nat) (query : String)
    (maxResults : Nat) (fetched : α) : α × WebCache α :=
  match WebCache.get cache (zaiCacheKey query maxResults) now with
  | some cached => (cached, cache)
  | none =>
    (fetched, WebCache.set cache (zaiCacheKey query maxResults) fetched (5 * 60 * 1000) now)

/-! ### File Change Ledger

Modelled from the spec: the ledger implementation is not in the corpus —
only the `FileChange` record type (`src/unnamed/part_000`, `path`,
`additions`, `deletions`, `status` with `pending`/`confirmed`) and the UI
`FileConflict` shape are.  The model keys records by the owning session
(the spec's "per-session accumulation of file diffs") and additionally
retains the pre-edit file content, which the spec requires the ledger to
keep, "at minimum the pre-edit content", so that rollback can restore
files.  Task membership is passed as the list of member session ids. -/

inductive ChangeStatus where
  | pending | confirmed
deriving DecidableEq, Repr

/-- One session's accumulated change to one file (`FileChange` plus its
owning session and the retained pre-edit content). -/
structure LedgerRecord where
  sessionId : String
  path : String
  additions : Nat
  deletions : Nat
  status : ChangeStatus
  originalContent : String
deriving DecidableEq, Repr

/-- Ledger state: all `FileChange` records plus the on-disk content of
each touched file (path → content). -/
structure LedgerState where
  records : List LedgerRecord
  files : List (String × String)
deriving DecidableEq, Repr

/-- The record owned by session `sess` for path `path`. -/
def recPred (sess path : String) : LedgerRecord → Bool :=
  fun r => decide (r.sessionId = sess ∧ r.path = path)

/-- Modelled from the spec: `recordChange` aggregates repeated edits to
the same path within one session additively into one `FileChange` record;
a fresh record is `pending` and captures the pre-edit content.  The
spec's invariant "a `confirmed` change can never return to `pending`" is
taken as binding, so re-editing an already confirmed path keeps the
record `confirmed`.  The tool layer's file write is folded in here
(`files` receives the new content) so that rollback's restoration is
expressible. -/
def recordChange (st : LedgerState) (sess path : String) (add del : Nat)
    (newContent : String) : LedgerState :=
  if st.records.any (recPred sess path) then
    { records := st.records.map (fun r =>
        if r.sessionId = sess ∧ r.path = path then
          { r with
            additions := r.additions + add
            deletions := r.deletions + del
            status := match r.status with
              | .confirmed => .confirmed
              | .pending => .pending }
        else r)
      files := assocSet st.files path newContent }
  else
    { records := st.records ++
        [⟨sess, path, add, del, .pending, (assocGet st.files path).getD ""⟩]
      files := assocSet st.files path newContent }

/-- Modelled from the spec: `confirm(sessionId)` marks all of that
session's `pending` records `confirmed`. -/
def confirmChanges (st : LedgerState) (sess : String) : LedgerState :=
  { st with
    records := st.records.map (fun r =>
      if r.sessionId = sess ∧ r.status = .pending then { r with status := .confirmed } else r) }

/-- Modelled from the spec: `rollback(sessionId)` restores the underlying
files to their pre-change content for every `pending` record of that
session and then clears those records; `confirmed` records are not
rollback-eligible and are left untouched. -/
def rollbackChanges (st : LedgerState) (sess : String) : LedgerState :=
  { records := st.records.filter (fun r => !decide (r.sessionId = sess ∧ r.status = .pending))
    files :=
      (st.records.filter (fun r => decide (r.sessionId = sess ∧ r.status = .pending))).foldl
        (fun fs r => assocSet fs r.path r.originalContent) st.files }

/-- All `pending` records across the task's member sessions. -/
def pendingMemberRecords (ledger : List LedgerRecord) (members : List String) :
    List LedgerRecord :=
  ledger.filter (fun r => decide (r.status = .pending ∧ r.sessionId ∈ members))

/-- Modelled from the spec: `detectConflicts(taskId)` groups all `pending`
`FileChange` records across the task's member sessions by `path`; any
path with records from at least two distinct sessions is a conflict. -/
def detectConflicts (ledger : List LedgerRecord) (members : List String) : List String :=
  ((pendingMemberRecords ledger members).map (fun r => r.path)).dedup.filter
    (fun p => decide (2 ≤
      (((pendingMemberRecords ledger members).filter (fun r => decide (r.path = p))).map
        (fun r => r.sessionId)).dedup.length))

/-- Modelled from the spec: `resolveConflict(taskId, path, winner)`
discards the `pending` records for that path from every member session
except the winning one (the file write itself is delegated to the tool
layer). -/
def resolveConflict (st : LedgerState) (members : List String) (path winner : String) :
    LedgerState :=
  { st with
    records := st.records.filter (fun r =>
      !decide (r.path = path ∧ r.status = .pending ∧ r.sessionId ∈ members ∧
        r.sessionId ≠ winner)) }

/-- Modelled from the spec: `rejectAll(taskId, path)` discards all
`pending` records for that path from every member session (the file
revert is delegated to the tool layer). -/
def rejectAllChanges (st : LedgerState) (members : List String) (path : String) :
    LedgerState :=
  { st with
    records := st.records.filter (fun r =>
      !decide (r.path = path ∧ r.status = .pending ∧ r.sessionId ∈ members)) }

/-- Every operation of the ledger. -/
inductive LedgerOp where
  | record (sess path : String) (add del : Nat) (newContent : String)
  | confirm (sess : String)
  | rollback (sess : String)
  | resolve (members : List String) (path winner : String)
  | reject (members : List String) (path : String)

/-- One ledger operation applied to the ledger state. -/
def applyLedgerOp (st : LedgerState) : LedgerOp → LedgerState
  | .record sess path add del newContent => recordChange st sess path add del newContent
  | .confirm sess => confirmChanges st sess
  | .rollback sess => rollbackChanges st sess
  | .resolve members path winner => resolveConflict st members path winner
  | .reject members path => rejectAllChanges st members path

/-- Status of the `FileChange` record a session holds for a path. -/
def recordStatus (st : LedgerState) (sess path : String) : Option ChangeStatus :=
  (st.records.find? (recPred sess path)).map (fun r => r.status)

/-! ### SKILL.md frontmatter parsing (`parseSkillMd`, src/unnamed/part_002)

The parser is embedded over `List Char`.  JavaScript regular expressions
are embedded by their matching semantics: `\s` is modelled by the ASCII
whitespace characters (space, tab, LF, CR, VT, FF — sufficient for the
frontmatter grammar), `\w` by `[A-Za-z0-9_]`. -/

/-- The ASCII part of the JS `\s` character class (also what `trim`
removes). -/
def isSpaceJS (c : Char) : Bool :=
  c = ' ' || c = '\t' || c = '\n' || c = '\r' || c = Char.ofNat 11 || c = Char.ofNat 12

/-- The JS `\w` character class, `[A-Za-z0-9_]`. -/
def isWordChar (c : Char) : Bool :=
  ('a' ≤ c && c ≤ 'z') || ('A' ≤ c && c ≤ 'Z') || ('0' ≤ c && c ≤ '9') || c = '_'

/-- The quote characters of `/^["']|["']$/`. -/
def quoteChars : List Char := ['"', Char.ofNat 39]

/-- `String.prototype.trim` (ASCII whitespace). -/
def trimJS (l : List Char) : List Char :=
  ((l.dropWhile isSpaceJS).reverse.dropWhile isSpaceJS).reverse

/-- `value.replace(/^["']|["']$/g, "")`: drop one leading quote character
if present, then one trailing quote character if one remains. -/
def stripQuotePairJS (l : List Char) : List Char :=
  let l1 := match l with
    | c :: rest => if c ∈ quoteChars then rest else l
    | [] => []
  match l1.getLast? with
  | some c => if c ∈ quoteChars then l1.dropLast else l1
  | none => l1

/-- `frontmatter.split(/\r?\n/)`: split on LF or CRLF; a lone CR is not a
separator. -/
def splitLinesJS : List Char → List (List Char)
  | [] => [[]]
  | '\r' :: '\n' :: rest => [] :: splitLinesJS rest
  | '\n' :: rest => [] :: splitLinesJS rest
  | c :: rest =>
    match splitLinesJS rest with
    | [] => [[c]]
    | l :: ls => (c :: l) :: ls

/-- `value.split(/\s+/)` (used for `allowed-tools`). -/
def splitWsJS (l : List Char) : List (List Char) :=
  go (l.length + 1) l
where
  go : Nat → List Char → List (List Char)
  | 0, _ => [[]]
  | n + 1, l =>
    let tok := l.takeWhile (fun c => !isSpaceJS c)
    let rest := l.dropWhile (fun c => !isSpaceJS c)
    match rest with
    | [] => [tok]
    | _ :: _ => tok :: go n (rest.dropWhile isSpaceJS)

/-- The `^---\r?\n` part of the frontmatter regex: strip the opening
delimiter line, keeping the rest. -/
def stripOpenDelim : List Char → Option (List Char)
  | '-' :: '-' :: '-' :: '\r' :: '\n' :: r => some r
  | '-' :: '-' :: '-' :: '\n' :: r => some r
  | _ => none

/-- The lazy `([\s\S]*?)\r?\n---` part of the frontmatter regex: the
shortest prefix after which `\r\n---` or `\n---` follows (the optional CR
is absorbed into the closing delimiter, not the captured group); `none`
when no closing delimiter exists. -/
def splitAtCloseDelim : List Char → Option (List Char)
  | [] => none
  | c :: cs =>
    if "\r\n---".data.isPrefixOf (c :: cs) || "\n---".data.isPrefixOf (c :: cs) then some []
    else
      match splitAtCloseDelim cs with
      | none => none
      | some inner => some (c :: inner)

/-- The full frontmatter regex match, `^---\r?\n` then the lazy capture
then `\r?\n---`: the captured frontmatter block, or `none` when the
content does not start with a `---`-delimited block. -/
def extractFrontmatter (content : String) : Option String :=
  match stripOpenDelim content.data with
  | none => none
  | some afterOpen =>
    match splitAtCloseDelim afterOpen with
    | none => none
    | some inner => some (String.mk inner)

/-- `SkillMetadata` (declared in `skills-store.ts`, not in the corpus;
fields as read and written by `parseSkillMd`).  `metadata` is the nested
string map; `none` for optional fields never assigned. -/
structure SkillMetadata where
  name : String
  description : String
  license : Option String
  compatibility : Option String
  allowedTools : Option (List String)
  metadata : Option (List (String × String))
deriving DecidableEq, Repr

/-- The test `line.match(/^\s{2}\w+:/)`: exactly two whitespace
characters, then one or more word characters, then a colon. -/
def metaLineTest (line : List Char) : Bool :=
  match line with
  | c1 :: c2 :: rest =>
    isSpaceJS c1 && isSpaceJS c2 &&
      (let w := rest.takeWhile isWordChar
       !w.isEmpty &&
         (match rest.drop w.length with
          | ':' :: _ => true
          | _ => false))
  | _ => false

/-- The capture `line.match(/^\s{2}(\w+):\s*"?([^"]*)"?$/)`: the key and
the value (greedy `\s*`, an optional double quote on either side of a
quote-free body, anchored at the end of the line); `none` when the line
does not match. -/
def metaCapture (line : List Char) : Option (String × String) :=
  match line with
  | c1 :: c2 :: rest =>
    if isSpaceJS c1 && isSpaceJS c2 then
      let w := rest.takeWhile isWordChar
      if w.isEmpty then none
      else
        match rest.drop w.length with
        | ':' :: after =>
          let after2 := after.dropWhile isSpaceJS
          let t := match after2 with
            | '"' :: r => r
            | _ => after2
          if t.contains '"' = false then some (String.mk w, String.mk t)
          else if t.getLast? = some '"' && t.dropLast.contains '"' = false then
            some (String.mk w, String.mk t.dropLast)
          else none
        | _ => none
    else none
  | _ => none

/-- First index of a colon in the line (`line.indexOf(":")`), `none` when
`line.includes(":")` is false. -/
def colonIdx (line : List Char) : Option Nat :=
  line.findIdx? (fun c => c = ':')

/-- `line.startsWith(" ")` (a literal space — tabs do not count). -/
def startsWithSpace : List Char → Bool
  | ' ' :: _ => true
  | _ => false

/-- One iteration of `parseSkillMd`'s line loop.  The accumulator is the
metadata record under construction plus the `inMetadata` flag.  Branches,
in source order: a line starting with `metadata:` resets the nested map
and enters metadata mode; inside metadata mode a `/^\s{2}\w+:/` line is
consumed (stored only when the capture regex matches); a line that does
not start with a space and contains a colon leaves metadata mode and
assigns the recognised top-level keys from its trimmed, quote-stripped
value; any other line is ignored. -/
def processLine (acc : SkillMetadata × Bool) (line : List Char) : SkillMetadata × Bool :=
  let md := acc.1
  let inMetadata := acc.2
  if "metadata:".data.isPrefixOf line then
    ({ md with metadata := some [] }, true)
  else if inMetadata && metaLineTest line then
    (match metaCapture line, md.metadata with
     | some kv, some m => { md with metadata := some (assocSet m kv.1 kv.2) }
     | _, _ => md,
     inMetadata)
  else if !startsWithSpace line && (colonIdx line).isSome then
    match colonIdx line with
    | some i =>
      let key := String.mk (trimJS (line.take i))
      let value := stripQuotePairJS (trimJS (line.drop (i + 1)))
      let md' :=
        if key = "name" then { md with name := String.mk value }
        else if key = "description" then { md with description := String.mk value }
        else if key = "license" then { md with license := some (String.mk value) }
        else if key = "compatibility" then { md with compatibility := some (String.mk value) }
        else if key = "allowed-tools" then
          { md with allowedTools := some ((splitWsJS value).map String.mk) }
        else md
      (md', false)
    | none => (md, inMetadata)
  else (md, inMetadata)

/-- The line loop of `parseSkillMd` over a frontmatter block, starting
from `{ name: "", description: "" }` with `inMetadata` false. -/
def parseFrontmatter (fm : String) : SkillMetadata :=
  ((splitLinesJS fm.data).foldl processLine (⟨"", "", none, none, none, none⟩, false)).1

/-- `parseSkillMd` (src/unnamed/part_002 lines 116-176): extract the
frontmatter block, run the line parser over it, and return the metadata
record only when both `name` and `description` are truthy (non-empty);
`null` otherwise. -/
def parseSkillMd (content : String) : Option SkillMetadata :=
  match extractFrontmatter content with
  | none => none
  | some fm =>
    let metadata := parseFrontmatter fm
    if metadata.name ≠ "" ∧ metadata.description ≠ "" then some metadata else none

/-! ### Association-list laws -/

theorem assocGet_eq_none_of_not_mem [DecidableEq κ] (m : List (κ × ν)) (k : κ)
    (h : k ∉ m.map Prod.fst) : assocGet m k = none := by
  induction m with
  | nil => rfl
  | cons p ps ih =>
    simp only [List.map_cons, List.mem_cons, not_or] at h
    have hp : ¬ p.1 = k := fun hp => h.1 hp.symm
    simp [assocGet, hp, ih h.2]

theorem assocGet_assocSet [DecidableEq κ] (m : List (κ × ν)) (k k' : κ) (v : ν) :
    assocGet (assocSet m k v) k' = if k = k' then some v else assocGet m k' := by
  induction m with
  | nil => simp [assocSet, assocGet]
  | cons p ps ih =>
    by_cases hp : p.1 = k
    · simp only [assocSet, if_pos hp, assocGet]
      by_cases h : k = k'
      · simp [h]
      · have hp' : ¬ p.1 = k' := by rw [hp]; exact h
        simp [h, hp']
    · simp only [assocSet, if_neg hp, assocGet, ih]
      by_cases hp' : p.1 = k'
      · have h : ¬ k = k' := fun h => hp (hp'.trans h.symm)
        simp [hp', h]
      · simp [hp']

theorem mem_keys_assocSet [DecidableEq κ] (m : List (κ × ν)) (k a : κ) (v : ν) :
    a ∈ (assocSet m k v).map Prod.fst ↔ a ∈ m.map Prod.fst ∨ a = k := by
  induction m with
  | nil => simp [assocSet]
  | cons p ps ih =>
    by_cases hp : p.1 = k
    · simp only [assocSet, if_pos hp, List.map_cons, List.mem_cons, ih]
      rw [hp]
      tauto
    · simp only [assocSet, if_neg hp, List.map_cons, List.mem_cons, ih]
      tauto

theorem nodup_keys_assocSet [DecidableEq κ] (m : List (κ × ν)) (k : κ) (v : ν)
    (h : (m.map Prod.fst).Nodup) : ((assocSet m k v).map Prod.fst).Nodup := by
  induction m with
  | nil => simp [assocSet]
  | cons p ps ih =>
    simp only [List.map_cons, List.nodup_cons] at h
    by_cases hp : p.1 = k
    · simp only [assocSet, if_pos hp, List.map_cons, List.nodup_cons]
      exact ⟨by rw [← hp]; exact h.1, h.2⟩
    · simp only [assocSet, if_neg hp, List.map_cons, List.nodup_cons]
      refine ⟨fun hmem => ?_, ih h.2⟩
      rcases (mem_keys_assocSet ps k p.1 v).mp hmem with h1 | h1
      · exact h.1 h1
      · exact hp h1

theorem assocUpdate_of_get_none [DecidableEq κ] (m : List (κ × ν)) (k : κ) (v : ν)
    (h : assocGet m k = none) : assocUpdate m k v = m := by
  induction m with
  | nil => rfl
  | cons p ps ih =>
    by_cases hp : p.1 = k
    · rw [assocGet, if_pos hp] at h
      simp at h
    · rw [assocGet, if_neg hp] at h
      simp [assocUpdate, hp, ih h]

theorem assocGet_assocUpdate [DecidableEq κ] (m : List (κ × ν)) (k k' : κ) (v : ν) :
    assocGet (assocUpdate m k v) k' =
      if k = k' ∧ (assocGet m k).isSome then some v else assocGet m k' := by
  induction m with
  | nil => simp [assocUpdate, assocGet]
  | cons p ps ih =>
    by_cases hp : p.1 = k
    · simp only [assocUpdate, if_pos hp]
      by_cases h : k = k'
      · simp [assocGet, hp, h]
      · have hp' : ¬ p.1 = k' := by rw [hp]; exact h
        simp [assocGet, hp, h, hp']
    · simp only [assocUpdate, if_neg hp]
      by_cases hp' : p.1 = k'
      · have h : ¬ k = k' := fun h => hp (hp'.trans h.symm)
        simp [assocGet, hp, hp', h]
      · simp [assocGet, hp, hp', ih]

theorem keys_assocUpdate [DecidableEq κ] (m : List (κ × ν)) (k : κ) (v : ν) :
    (assocUpdate m k v).map Prod.fst = m.map Prod.fst := by
  induction m with
  | nil => rfl
  | cons p ps ih =>
    by_cases hp : p.1 = k
    · simp only [assocUpdate, if_pos hp, List.map_cons, List.cons.injEq]
      exact ⟨hp.symm, trivial⟩
    · simp [assocUpdate, hp, ih]

theorem sublist_assocDelete [DecidableEq κ] (m : List (κ × ν)) (k : κ) :
    (assocDelete m k).Sublist m := by
  induction m with
  | nil => simp [assocDelete]
  | cons p ps ih =>
    by_cases hp : p.1 = k
    · simp only [assocDelete, if_pos hp]
      exact List.sublist_cons_self p ps
    · simp only [assocDelete, if_neg hp]
      exact List.Sublist.cons₂ _ ih

theorem nodup_keys_assocDelete [DecidableEq κ] (m : List (κ × ν)) (k : κ)
    (h : (m.map Prod.fst).Nodup) : ((assocDelete m k).map Prod.fst).Nodup :=
  h.sublist ((sublist_assocDelete m k).map Prod.fst)

theorem assocGet_assocDelete [DecidableEq κ] (m : List (κ × ν)) (k k' : κ)
    (h : (m.map Prod.fst).Nodup) :
    assocGet (assocDelete m k) k' = if k = k' then none else assocGet m k' := by
  induction m with
  | nil => simp [assocDelete, assocGet]
  | cons p ps ih =>
    simp only [List.map_cons, List.nodup_cons] at h
    by_cases hp : p.1 = k
    · simp only [assocDelete, if_pos hp]
      by_cases hk : k = k'
      · subst hk
        rw [if_pos rfl]
        exact assocGet_eq_none_of_not_mem ps k (hp ▸ h.1)
      · rw [if_neg hk]
        have hp' : ¬ p.1 = k' := by rw [hp]; exact hk
        rw [assocGet, if_neg hp']
    · simp only [assocDelete, if_neg hp]
      by_cases hp' : p.1 = k'
      · have hk : ¬ k = k' := fun hk => hp (by rw [hk, ← hp'])
        simp [assocGet, hp', hk]
      · simp [assocGet, hp', ih h.2]

/-! ### Lemmas about the router's data -/

theorem mem_getSessionWindows (st : RouterState) (sid : String) (w : Nat) :
    w ∈ getSessionWindows st sid ↔ (w, some sid) ∈ st.subscriptions := by
  simp only [getSessionWindows, List.mem_map, List.mem_filter, decide_eq_true_eq]
  constructor
  · rintro ⟨⟨a, b⟩, ⟨hmem, hb⟩, ha⟩
    simp only at hb ha
    subst hb; subst ha; exact hmem
  · intro h; exact ⟨(w, some sid), ⟨h, rfl⟩, rfl⟩

theorem updateLatest_subscriptions (st : RouterState) (e : ServerEvent) :
    (updateLatest st e).subscriptions = st.subscriptions := by
  cases e <;> simp [updateLatest]
  rename_i txt; cases txt <;> simp

theorem emit_subscriptions (st : RouterState) (e : ServerEvent) (f : Option Nat) :
    (emit st e f).state.subscriptions = st.subscriptions := by
  have hu := updateLatest_subscriptions st e
  cases e <;> simp only [emit] <;>
    first
      | exact hu
      | (split <;> first | exact hu | (split <;> exact hu))

theorem getSessionWindows_updateLatest (st : RouterState) (e : ServerEvent) (sid : String) :
    getSessionWindows (updateLatest st e) sid = getSessionWindows st sid := by
  simp [getSessionWindows, updateLatest_subscriptions]

theorem windowIds_updateLatest (st : RouterState) (e : ServerEvent) :
    windowIds (updateLatest st e) = windowIds st := by
  simp [windowIds, updateLatest_subscriptions]

theorem updateLatest_eq_self (st : RouterState) (e : ServerEvent)
    (h1 : isStreamMessage e = false) (h2 : isSessionDeleted e = false) :
    updateLatest st e = st := by
  cases e <;> simp_all [updateLatest, isStreamMessage, isSessionDeleted]

/-! ### Projection lemmas for `emit` -/

theorem emit_state (st : RouterState) (e : ServerEvent) (f : Option Nat) :
    (emit st e f).state = updateLatest st e := by
  cases e <;> simp only [emit] <;>
    first
    | rfl
    | (split
       · rfl
       · (split <;> rfl))

theorem emit_delivered (st : RouterState) (e : ServerEvent) (f : Option Nat) :
    (emit st e f).delivered =
      match e with
      | .sessionStatus _ _ _ => windowIds st
      | _ =>
        match truthyId (getSessionId e) with
        | none => windowIds st
        | some sid => getSessionWindows st sid := by
  cases e <;> simp only [emit, getSessionId] <;>
    first
    | exact windowIds_updateLatest st _
    | (split
       · exact windowIds_updateLatest st _
       · (split
          · next h =>
              rw [getSessionWindows_updateLatest] at h
              exact (List.length_eq_zero.mp h).symm
          · exact getSessionWindows_updateLatest st _ _))

theorem emit_dropped (st : RouterState) (e : ServerEvent) (f : Option Nat) :
    (emit st e f).droppedDiagnostic =
      match e with
      | .sessionStatus _ _ _ => false
      | _ =>
        match truthyId (getSessionId e) with
        | none => false
        | some sid => decide ((getSessionWindows st sid).length = 0) := by
  cases e <;> simp only [emit, getSessionId] <;>
    first
    | rfl
    | (split
       · rfl
       · (split
          · next h =>
              rw [getSessionWindows_updateLatest] at h
              simp [h]
          · next h =>
              rw [getSessionWindows_updateLatest] at h
              simp [h]))

theorem emit_notified (st : RouterState) (e : ServerEvent) (f : Option Nat) :
    (emit st e f).notified =
      match e with
      | .sessionStatus sid status _ =>
        shouldNotifyForSession status sid (getFocusedSessionId st f) && decide (sid ≠ "")
      | _ => false := by
  cases e <;> simp only [emit, getSessionId] <;>
    first
    | rfl
    | (split
       · rfl
       · (split <;> rfl))

/-! ### The refinement between router traces and the claim-side view -/

theorem applyOp_assocGet (st : RouterState) (op : RouterOp)
    (h : (st.subscriptions.map Prod.fst).Nodup) (w : Nat) :
    assocGet (applyOp st op).subscriptions w =
      subscriptionSpecStep w (assocGet st.subscriptions w) op := by
  cases op with
  | register w' =>
    simpa [applyOp, registerWindow, subscriptionSpecStep] using
      assocGet_assocSet st.subscriptions w' w none
  | close w' =>
    simpa [applyOp, closeWindow, subscriptionSpecStep] using
      assocGet_assocDelete st.subscriptions w' w h
  | setSession w' sid =>
    simp only [applyOp, setWindowSession, subscriptionSpecStep]
    by_cases hreg : (assocGet st.subscriptions w').isSome
    · rw [if_pos hreg]
      show assocGet (assocUpdate st.subscriptions w' sid) w = _
      rw [assocGet_assocUpdate]
      by_cases hw : w' = w
      · subst hw
        simp [hreg]
      · simp [hw]
    · rw [if_neg hreg]
      by_cases hw : w' = w
      · subst hw
        rw [Option.not_isSome_iff_eq_none] at hreg
        simp [hreg]
      · simp [hw]
  | emitEvent e f =>
    show assocGet (emit st e f).state.subscriptions w = assocGet st.subscriptions w
    rw [emit_subscriptions]

theorem applyOp_nodup (st : RouterState) (op : RouterOp)
    (h : (st.subscriptions.map Prod.fst).Nodup) :
    ((applyOp st op).subscriptions.map Prod.fst).Nodup := by
  cases op with
  | register w' => exact nodup_keys_assocSet _ _ _ h
  | close w' => exact nodup_keys_assocDelete _ _ h
  | setSession w' sid =>
    simp only [applyOp, setWindowSession]
    split
    · show ((assocUpdate st.subscriptions w' sid).map Prod.fst).Nodup
      rw [keys_assocUpdate]
      exact h
    · exact h
  | emitEvent e f =>
    show (((emit st e f).state.subscriptions).map Prod.fst).Nodup
    rw [emit_subscriptions]
    exact h

theorem runOps_spec (ops : List RouterOp) (st : RouterState)
    (h : (st.subscriptions.map Prod.fst).Nodup) :
    ((runOps st ops).subscriptions.map Prod.fst).Nodup ∧
      ∀ w, assocGet (runOps st ops).subscriptions w =
        ops.foldl (subscriptionSpecStep w) (assocGet st.subscriptions w) := by
  induction ops generalizing st with
  | nil => exact ⟨h, fun w => rfl⟩
  | cons op ops ih =>
    obtain ⟨hnd, hget⟩ := ih (applyOp st op) (applyOp_nodup st op h)
    refine ⟨hnd, fun w => ?_⟩
    show assocGet (runOps (applyOp st op) ops).subscriptions w = _
    rw [hget w, applyOp_assocGet st op h w]
    rfl

/-! ### `List.find?` helpers -/

theorem find?_map_of_keys {α : Type} (g : α → α) (l : List α) (p : α → Bool)
    (hg : ∀ a, p (g a) = p a) : (l.map g).find? p = (l.find? p).map g := by
  induction l with
  | nil => rfl
  | cons a l ih =>
    simp only [List.map_cons, List.find?_cons, hg]
    cases hpa : p a <;> simp [ih]

theorem find?_filter_of_found {α : Type} (l : List α) (p q : α → Bool) (r : α)
    (hf : l.find? p = some r) (hq : q r = true) : (l.filter q).find? p = some r := by
  induction l with
  | nil => simp at hf
  | cons a l ih =>
    rw [List.find?_cons] at hf
    cases hpa : p a
    · rw [hpa] at hf
      cases hqa : q a
      · simp only [List.filter_cons, hqa, Bool.false_eq_true, if_false]
        exact ih hf
      · simp only [List.filter_cons, hqa, if_true]
        rw [List.find?_cons, hpa]
        exact ih hf
    · rw [hpa] at hf
      injection hf with hf
      subst hf
      simp only [List.filter_cons, hq, if_true]
      rw [List.find?_cons, hpa]

theorem find?_append_left {α : Type} (l₁ l₂ : List α) (p : α → Bool) (r : α)
    (hf : l₁.find? p = some r) : (l₁ ++ l₂).find? p = some r := by
  induction l₁ with
  | nil => simp at hf
  | cons a l ih =>
    rw [List.find?_cons] at hf
    rw [List.cons_append, List.find?_cons]
    cases hpa : p a
    · rw [hpa] at hf
      exact ih hf
    · rw [hpa] at hf
      exact hf

/-! ### Duplicated-session helper for conflict detection -/

theorem two_le_dedup_length_iff {α : Type} [DecidableEq α] (l : List α) :
    2 ≤ l.dedup.length ↔ ∃ a, a ∈ l ∧ ∃ b, b ∈ l ∧ a ≠ b := by
  constructor
  · intro h
    rcases hd : l.dedup with _ | ⟨a, _ | ⟨b, t⟩⟩
    · rw [hd] at h; simp at h
    · rw [hd] at h; simp at h
    · have hnd := l.nodup_dedup
      rw [hd] at hnd
      have hab : a ≠ b := by
        intro hab
        subst hab
        simp [List.nodup_cons] at hnd
      have ha : a ∈ l := List.mem_dedup.mp (by rw [hd]; exact List.mem_cons_self a _)
      have hb : b ∈ l :=
        List.mem_dedup.mp (by rw [hd]; exact List.mem_cons_of_mem a (List.mem_cons_self b _))
      exact ⟨a, ha, b, hb, hab⟩
  · rintro ⟨a, ha, b, hb, hab⟩
    by_contra hlen
    push_neg at hlen
    have ha' : a ∈ l.dedup := List.mem_dedup.mpr ha
    have hb' : b ∈ l.dedup := List.mem_dedup.mpr hb
    rcases hd : l.dedup with _ | ⟨x, _ | ⟨y, t⟩⟩
    · rw [hd] at ha'; simp at ha'
    · rw [hd] at ha' hb'
      simp at ha' hb'
      exact hab (ha'.trans hb'.symm)
    · rw [hd] at hlen
      simp [List.length_cons] at hlen
      omega

/-! ### Ledger helpers -/

theorem recordStatus_confirmed_elim (st : LedgerState) (sess path : String)
    (h : recordStatus st sess path = some .confirmed) :
    ∃ r, st.records.find? (recPred sess path) = some r ∧ r.status = .confirmed := by
  unfold recordStatus at h
  rcases hf : st.records.find? (recPred sess path) with _ | r
  · rw [hf] at h; simp at h
  · rw [hf] at h
    simp only [Option.map_some', Option.some.injEq] at h
    exact ⟨r, rfl, h⟩

theorem recordChange_records (st : LedgerState) (sess path : String) (add del : Nat)
    (nc : String) :
    (recordChange st sess path add del nc).records =
      if st.records.any (recPred sess path) then
        st.records.map (fun r =>
          if r.sessionId = sess ∧ r.path = path then
            { r with
              additions := r.additions + add
              deletions := r.deletions + del
              status := match r.status with
                | .confirmed => .confirmed
                | .pending => .pending }
          else r)
      else st.records ++ [⟨sess, path, add, del, .pending, (assocGet st.files path).getD ""⟩] := by
  unfold recordChange
  split <;> rfl

theorem confirmChanges_records (st : LedgerState) (sess : String) :
    (confirmChanges st sess).records =
      st.records.map (fun r =>
        if r.sessionId = sess ∧ r.status = .pending then { r with status := .confirmed }
        else r) := rfl

theorem rollbackChanges_records (st : LedgerState) (sess : String) :
    (rollbackChanges st sess).records =
      st.records.filter (fun r => !decide (r.sessionId = sess ∧ r.status = .pending)) := rfl

theorem resolveConflict_records (st : LedgerState) (members : List String)
    (path winner : String) :
    (resolveConflict st members path winner).records =
      st.records.filter (fun r =>
        !decide (r.path = path ∧ r.status = .pending ∧ r.sessionId ∈ members ∧
          r.sessionId ≠ winner)) := rfl

theorem rejectAllChanges_records (st : LedgerState) (members : List String) (path : String) :
    (rejectAllChanges st members path).records =
      st.records.filter (fun r =>
        !decide (r.path = path ∧ r.status = .pending ∧ r.sessionId ∈ members)) := rfl

theorem applyLedgerOp_preserves_confirmed (st : LedgerState) (op : LedgerOp)
    (sess path : String) (h : recordStatus st sess path = some .confirmed) :
    recordStatus (applyLedgerOp st op) sess path = some .confirmed := by
  obtain ⟨r, hf, hstat⟩ := recordStatus_confirmed_elim st sess path h
  cases op with
  | record sess' path' add del nc =>
    show recordStatus (recordChange st sess' path' add del nc) sess path = _
    unfold recordStatus
    rw [recordChange_records]
    have hkeys : ∀ a, recPred sess path
        (if a.sessionId = sess' ∧ a.path = path' then
          { a with
            additions := a.additions + add
            deletions := a.deletions + del
            status := match a.status with
              | ChangeStatus.confirmed => ChangeStatus.confirmed
              | ChangeStatus.pending => ChangeStatus.pending }
        else a) = recPred sess path a := by
      intro a
      by_cases ha : a.sessionId = sess' ∧ a.path = path' <;> simp [recPred, ha]
    split
    · rw [find?_map_of_keys _ _ _ hkeys, hf]
      by_cases hr : r.sessionId = sess' ∧ r.path = path' <;> simp [hr, hstat]
    · rw [find?_append_left _ _ _ r hf]
      simp [hstat]
  | confirm sess' =>
    show recordStatus (confirmChanges st sess') sess path = _
    unfold recordStatus
    rw [confirmChanges_records]
    have hkeys : ∀ a, recPred sess path
        (if a.sessionId = sess' ∧ a.status = ChangeStatus.pending then
          { a with status := ChangeStatus.confirmed }
        else a) = recPred sess path a := by
      intro a
      by_cases ha : a.sessionId = sess' ∧ a.status = ChangeStatus.pending <;> simp [recPred, ha]
    rw [find?_map_of_keys _ _ _ hkeys, hf]
    have hr : ¬(r.sessionId = sess' ∧ r.status = ChangeStatus.pending) := by
      rintro ⟨_, hpend⟩
      rw [hstat] at hpend
      cases hpend
    simp [hr, hstat]
  | rollback sess' =>
    show recordStatus (rollbackChanges st sess') sess path = _
    unfold recordStatus
    rw [rollbackChanges_records, find?_filter_of_found _ _ _ r hf (by simp [hstat])]
    simp [hstat]
  | resolve members path' winner =>
    show recordStatus (resolveConflict st members path' winner) sess path = _
    unfold recordStatus
    rw [resolveConflict_records, find?_filter_of_found _ _ _ r hf (by simp [hstat])]
    simp [hstat]
  | reject members path' =>
    show recordStatus (rejectAllChanges st members path') sess path = _
    unfold recordStatus
    rw [rejectAllChanges_records, find?_filter_of_found _ _ _ r hf (by simp [hstat])]
    simp [hstat]

theorem rollback_after_confirm (st : LedgerState) (sess : String) :
    rollbackChanges (confirmChanges st sess) sess = confirmChanges st sess := by
  have hall : ∀ a ∈ (confirmChanges st sess).records,
      ¬(a.sessionId = sess ∧ a.status = ChangeStatus.pending) := by
    intro a ha
    rw [confirmChanges_records, List.mem_map] at ha
    obtain ⟨r, _, hr⟩ := ha
    subst hr
    by_cases hc : r.sessionId = sess ∧ r.status = ChangeStatus.pending <;> simp [hc]
  have hkeep : ((confirmChanges st sess).records).filter
      (fun r => !decide (r.sessionId = sess ∧ r.status = ChangeStatus.pending)) =
      (confirmChanges st sess).records := by
    rw [List.filter_eq_self]
    intro a ha
    simp [hall a ha]
  have hnil : ((confirmChanges st sess).records).filter
      (fun r => decide (r.sessionId = sess ∧ r.status = ChangeStatus.pending)) = [] := by
    rw [List.filter_eq_nil_iff]
    intro a ha
    simp [hall a ha]
  unfold rollbackChanges
  rw [hkeep, hnil]
  rfl

theorem truthyId_eq_some (o : Option String) (s : String) (h : truthyId o = some s) :
    o = some s ∧ s ≠ "" := by
  rcases o with _ | x
  · simp [truthyId] at h
  · by_cases hx : x = ""
    · simp [truthyId, hx] at h
    · simp only [truthyId, if_neg hx, Option.some.injEq] at h
      subst h
      exact ⟨rfl, hx⟩

theorem runLedger_preserves_confirmed (ops : List LedgerOp) :
    ∀ st : LedgerState, ∀ sess path : String,
      recordStatus st sess path = some .confirmed →
      recordStatus (ops.foldl applyLedgerOp st) sess path = some .confirmed := by
  induction ops with
  | nil => exact fun _ _ _ h => h
  | cons op ops ih =>
    intro st sess path h
    exact ih (applyLedgerOp st op) sess path (applyLedgerOp_preserves_confirmed st op sess path h)

theorem mem_pendingMemberRecords (ledger : List LedgerRecord) (members : List String)
    (r : LedgerRecord) :
    r ∈ pendingMemberRecords ledger members ↔
      r ∈ ledger ∧ r.status = ChangeStatus.pending ∧ r.sessionId ∈ members := by
  simp [pendingMemberRecords, List.mem_filter, and_assoc]

/-! ### Frontmatter helper -/

theorem stripOpenDelim_shape (t r : List Char) (h : stripOpenDelim t = some r) :
    ∃ rest, t = '-' :: '-' :: '-' :: rest := by
  unfold stripOpenDelim at h
  split at h
  · next r' => exact ⟨'\r' :: '\n' :: r', rfl⟩
  · next r' => exact ⟨'\n' :: r', rfl⟩
  · simp at h

/-! ## Claim theorems -/

/-- C1 (counterexample): the routing rule of the claim fails for an event
that carries the empty-string session id.  With one registered window
subscribed to session "x", the `file_changes.updated` event whose
`sessionId` is `""` is not a `session.status` event and its payload
carries a sessionId, so the claim requires delivery to exactly the
windows subscribed to `""` — there are none — yet `emit` broadcasts it to
window 1, because `if (!sessionId)` treats the empty string as absent. -/
theorem C1_counterexample :
    (emit ⟨[(1, some "x")], []⟩ (.fileChangesUpdated "") none).delivered = [1] ∧
      getSessionWindows ⟨[(1, some "x")], []⟩ "" = [] := by
  decide

/-- C1 (amended): for every router state, event and window — a
`session.status` event is delivered to every registered window;
otherwise, when the payload carries no session id or an empty-string one,
the event is broadcast to every registered window; otherwise it is
delivered to exactly those windows whose current subscription equals the
event's session id, and to no other window. -/
theorem C1_routing (st : RouterState) (e : ServerEvent) (f : Option Nat) (w : Nat) :
    w ∈ (emit st e f).delivered ↔
      (if isSessionStatus e = true ∨ truthyId (getSessionId e) = none then w ∈ windowIds st
       else ∃ s, truthyId (getSessionId e) = some s ∧ (w, some s) ∈ st.subscriptions) := by
  rw [emit_delivered]
  cases e
  case runnerError osid =>
    rcases osid with _ | sid
    · simp [isSessionStatus, getSessionId, truthyId]
    · simp only [isSessionStatus, getSessionId, truthyId]
      split
      · next heq =>
          split at heq
          · next hsid => simp [hsid]
          · simp at heq
      · next x heq =>
          split at heq
          · simp at heq
          · next hsid =>
              injection heq with heq
              subst heq
              simp [mem_getSessionWindows, hsid]
  all_goals
    first
    | (simp [isSessionStatus, getSessionId, truthyId]; done)
    | (simp only [isSessionStatus, getSessionId, truthyId]
       split
       · next heq =>
           split at heq
           · next hsid => simp [hsid]
           · simp at heq
       · next x heq =>
           split at heq
           · simp at heq
           · next hsid =>
               injection heq with heq
               subst heq
               simp [mem_getSessionWindows, hsid])

/-- C2 (counterexample): the claim fails for an event that carries the
empty-string session id.  One window is registered and subscribed to
nothing, so zero windows are subscribed to `""`; the claim requires the
`todos.updated` event with `sessionId: ""` to be dropped with a
diagnostic, yet `emit` broadcasts it to window 1 and records no
diagnostic. -/
theorem C2_counterexample :
    (emit ⟨[(1, none)], []⟩ (.todosUpdated "") none).delivered = [1] ∧
      (emit ⟨[(1, none)], []⟩ (.todosUpdated "") none).droppedDiagnostic = false ∧
      getSessionWindows ⟨[(1, none)], []⟩ "" = [] := by
  decide

/-- C2 (amended): for every event that carries a non-empty session id and
is not a `session.status` event, if zero registered windows are
subscribed to that id, `emit` delivers the event to no window, records
the "no windows subscribed" diagnostic, raises no notification, and
leaves the subscriptions — and, except for the documented
`stream.message`/`session.deleted` updates, the latest-response cache —
unchanged.  The router state holds no queue, so an undelivered event can
never be delivered later. -/
theorem C2_dropped (st : RouterState) (e : ServerEvent) (f : Option Nat) (s : String)
    (hsid : truthyId (getSessionId e) = some s)
    (hstatus : isSessionStatus e = false)
    (hsub : getSessionWindows st s = []) :
    (emit st e f).delivered = [] ∧
      (emit st e f).droppedDiagnostic = true ∧
      (emit st e f).state.subscriptions = st.subscriptions ∧
      (emit st e f).notified = false ∧
      (isStreamMessage e = false → isSessionDeleted e = false →
        (emit st e f).state.latestResponses = st.latestResponses) := by
  obtain ⟨hget, hne⟩ := truthyId_eq_some _ _ hsid
  refine ⟨?_, ?_, emit_subscriptions st e f, ?_, fun h1 h2 => by
    rw [emit_state, updateLatest_eq_self st e h1 h2]⟩
  · rw [emit_delivered]
    cases e <;> simp_all [isSessionStatus, getSessionId, truthyId]
  · rw [emit_dropped]
    cases e <;> simp_all [isSessionStatus, getSessionId, truthyId]
  · rw [emit_notified]
    cases e <;> simp_all [isSessionStatus, getSessionId, truthyId]

/-- C2 (witness): concrete instance — one window subscribed to session
"a", a `todos.updated` event for session "b": nobody is subscribed, the
event is delivered to no window and the diagnostic is recorded. -/
theorem C2_dropped_witness :
    getSessionWindows ⟨[(1, some "a")], []⟩ "b" = [] ∧
      (emit ⟨[(1, some "a")], []⟩ (.todosUpdated "b") none).delivered = [] ∧
      (emit ⟨[(1, some "a")], []⟩ (.todosUpdated "b") none).droppedDiagnostic = true := by
  refine ⟨by decide, ?_, ?_⟩
  · exact (C2_dropped ⟨[(1, some "a")], []⟩ (.todosUpdated "b") none "b"
      (by decide) (by decide) (by decide)).1
  · exact (C2_dropped ⟨[(1, some "a")], []⟩ (.todosUpdated "b") none "b"
      (by decide) (by decide) (by decide)).2.1

/-- C3: starting from the freshly constructed router, after any trace of
router operations the subscriptions map holds at most one entry per
window id (its keys are duplicate-free), and the entry of every window
equals the claim-side view: created unsubscribed on `registerWindow`,
removed on window close, and equal to the `sessionId` argument of the
latest `setWindowSession` call for that window since its registration
(`null` if none) — every operation, `emit` included, preserves this. -/
theorem C3_subscription_invariant (ops : List RouterOp) (w : Nat) :
    ((runOps RouterState.base ops).subscriptions.map Prod.fst).Nodup ∧
      assocGet (runOps RouterState.base ops).subscriptions w = subscriptionSpec w ops := by
  obtain ⟨hnd, hget⟩ := runOps_spec ops RouterState.base List.Pairwise.nil
  exact ⟨hnd, hget w⟩

/-- C4 (counterexample): the claim's notification rule fails for a
`session.status` event whose session id is the empty string.  No window
is focused, so the focused session is none and differs from the event's
session `""`; the claim requires a notification for the `completed`
status, yet `emit` raises none, because `sendNotification` sits behind
`if (payloadSessionId)` and the empty string is falsy. -/
theorem C4_counterexample :
    shouldNotifyForSession SessionStatus.completed ""
        (getFocusedSessionId RouterState.base none) = true ∧
      (emit RouterState.base (.sessionStatus "" SessionStatus.completed none) none).notified =
        false := by
  decide

/-- C4 (amended): for every `session.status` event the router raises a
desktop notification iff the status is `completed` or `error`, the
event's session id differs from the focused window's session (none when
no window is focused or the focused window is unregistered or
unsubscribed), and the event's session id is non-empty; every other
event kind raises no notification. -/
theorem C4_notification (st : RouterState) (f : Option Nat) :
    (∀ sid status title,
      (emit st (.sessionStatus sid status title) f).notified =
        ((decide (status = SessionStatus.completed) || decide (status = SessionStatus.error)) &&
          decide (getFocusedSessionId st f ≠ some sid) && decide (sid ≠ ""))) ∧
    ∀ e, isSessionStatus e = false → (emit st e f).notified = false := by
  constructor
  · intro sid status title
    rw [emit_notified]
    rfl
  · intro e he
    rw [emit_notified]
    cases e <;> simp_all [isSessionStatus]

/-- C4 (witness): a non-status event raises no notification, and a
`completed` status for an unwatched, non-empty session does notify. -/
theorem C4_notification_witness :
    (emit RouterState.base ServerEvent.sessionList none).notified = false ∧
      (emit RouterState.base (.sessionStatus "s" SessionStatus.completed none) none).notified =
        true := by
  constructor
  · exact (C4_notification RouterState.base none).2 ServerEvent.sessionList (by decide)
  · rw [(C4_notification RouterState.base none).1 "s" SessionStatus.completed none]
    decide

/-- C5 (counterexample): the web-search tools use the shared Web Request
Cache unconditionally — their code path receives no `shareWebCache`
policy at all.  A Tavily execution on a cache pre-populated (necessarily
by some other execution) under the same key returns the shared cached
value instead of its own fetched results, and an execution on an empty
cache writes to the shared cache; both happen regardless of any task's
`shareWebCache` setting, contradicting the claim for executions whose
owning task does not enable it. -/
theorem C5_counterexample :
    (tavilySearch (WebCache.set WebCache.base (tavilyCacheKey "q" 5) "cached" 300000 0)
        1000 "q" 5 "fresh").1 = "cached" ∧
      ("cached" : String) ≠ "fresh" ∧
      (tavilySearch (WebCache.base (α := String)) 0 "q" 5 "fresh").2 ≠ WebCache.base := by
  decide

/-- C5 (amended): every web-search tool execution (Tavily and Z.AI alike)
looks the shared Web Request Cache up before fetching and populates it
after fetching, unconditionally: a fresh cache hit is returned with the
cache unchanged, and on a miss the fetched results are stored under the
provider-prefixed key with a 5-minute TTL.  `shareWebCache` is not
consulted at the tool layer. -/
theorem C5_cache_unconditional {α : Type} (cache : WebCache α) (now : Nat) (query : String)
    (maxResults : Nat) (fetched : α) :
    (∀ v, WebCache.get cache (tavilyCacheKey query maxResults) now = some v →
        tavilySearch cache now query maxResults fetched = (v, cache)) ∧
    (WebCache.get cache (tavilyCacheKey query maxResults) now = none →
        tavilySearch cache now query maxResults fetched =
          (fetched,
            WebCache.set cache (tavilyCacheKey query maxResults) fetched (5 * 60 * 1000) now)) ∧
    (∀ v, WebCache.get cache (zaiCacheKey query maxResults) now = some v →
        zaiSearch cache now query maxResults fetched = (v, cache)) ∧
    (WebCache.get cache (zaiCacheKey query maxResults) now = none →
        zaiSearch cache now query maxResults fetched =
          (fetched,
            WebCache.set cache (zaiCacheKey query maxResults) fetched (5 * 60 * 1000) now)) := by
  refine ⟨fun v hv => ?_, fun hn => ?_, fun v hv => ?_, fun hn => ?_⟩
  · unfold tavilySearch
    rw [hv]
  · unfold tavilySearch
    rw [hn]
  · unfold zaiSearch
    rw [hv]
  · unfold zaiSearch
    rw [hn]

/-- C5 (witness): a Tavily execution on the empty shared cache returns
the fetched results and stores them in the shared cache. -/
theorem C5_cache_unconditional_witness :
    tavilySearch (WebCache.base (α := String)) 0 "q" 5 "fresh" =
      ("fresh", WebCache.set WebCache.base (tavilyCacheKey "q" 5) "fresh" (5 * 60 * 1000) 0) :=
  (C5_cache_unconditional WebCache.base 0 "q" 5 "fresh").2.1 (by decide)

/-- C6: for every key, value and positive ttl, a `get` performed `elapsed`
milliseconds after `set(k, v, t)` returns the value iff strictly less
than `t` milliseconds have elapsed since insertion, and a miss once at
least `t` milliseconds have elapsed — expiry is checked lazily on `get`,
measured from insertion time. -/
theorem C6_ttl (α : Type) (c : WebCache α) (k : String) (v : α) (t now elapsed : Nat)
    (_ht : 0 < t) :
    WebCache.get (WebCache.set c k v t now) k (now + elapsed) =
      if elapsed < t then some v else none := by
  unfold WebCache.get WebCache.set
  rw [assocGet_assocSet]
  simp [Nat.add_sub_cancel_left]

/-- C6 (witness): `set(k, 7, 1000)` at time 0 followed by `get(k)` at
time 250 returns the value. -/
theorem C6_ttl_witness :
    0 < 1000 ∧
      WebCache.get (WebCache.set (WebCache.base (α := Nat)) "k" 7 1000 0) "k" (0 + 250) =
        (if 250 < 1000 then some 7 else none) :=
  ⟨by decide, C6_ttl Nat WebCache.base "k" 7 1000 0 250 (by decide)⟩

/-- C7: `detectConflicts` reports a conflict for a path iff at least two
distinct member sessions of the task hold a pending `FileChange` record
for that path; in particular a path touched by only one session is never
a conflict, no matter how many records that session accumulated for
it. -/
theorem C7_detectConflicts (ledger : List LedgerRecord) (members : List String) (p : String) :
    p ∈ detectConflicts ledger members ↔
      ∃ r1, r1 ∈ ledger ∧ ∃ r2, r2 ∈ ledger ∧
        r1.status = ChangeStatus.pending ∧ r2.status = ChangeStatus.pending ∧
        r1.sessionId ∈ members ∧ r2.sessionId ∈ members ∧
        r1.path = p ∧ r2.path = p ∧ r1.sessionId ≠ r2.sessionId := by
  unfold detectConflicts
  rw [List.mem_filter, List.mem_dedup]
  simp only [decide_eq_true_eq]
  rw [two_le_dedup_length_iff]
  constructor
  · rintro ⟨_, a, ha, b, hb, hab⟩
    rw [List.mem_map] at ha hb
    obtain ⟨r1, hr1, hsa⟩ := ha
    obtain ⟨r2, hr2, hsb⟩ := hb
    rw [List.mem_filter] at hr1 hr2
    obtain ⟨hr1pm, hr1p⟩ := hr1
    obtain ⟨hr2pm, hr2p⟩ := hr2
    simp only [decide_eq_true_eq] at hr1p hr2p
    obtain ⟨h1l, h1s, h1m⟩ := (mem_pendingMemberRecords ledger members r1).mp hr1pm
    obtain ⟨h2l, h2s, h2m⟩ := (mem_pendingMemberRecords ledger members r2).mp hr2pm
    exact ⟨r1, h1l, r2, h2l, h1s, h2s, h1m, h2m, hr1p, hr2p, by rw [hsa, hsb]; exact hab⟩
  · rintro ⟨r1, h1l, r2, h2l, h1s, h2s, h1m, h2m, h1p, h2p, hdist⟩
    have h1pm := (mem_pendingMemberRecords ledger members r1).mpr ⟨h1l, h1s, h1m⟩
    have h2pm := (mem_pendingMemberRecords ledger members r2).mpr ⟨h2l, h2s, h2m⟩
    refine ⟨?_, r1.sessionId, ?_, r2.sessionId, ?_, hdist⟩
    · rw [List.mem_map]
      exact ⟨r1, h1pm, h1p⟩
    · rw [List.mem_map]
      exact ⟨r1, by rw [List.mem_filter]; exact ⟨h1pm, by simp [h1p]⟩, rfl⟩
    · rw [List.mem_map]
      exact ⟨r2, by rw [List.mem_filter]; exact ⟨h2pm, by simp [h2p]⟩, rfl⟩

/-- C8: once a session's `FileChange` record for a path is `confirmed` it
stays `confirmed` under every subsequent sequence of ledger operations
(further edits, confirms, rollbacks, conflict resolutions and
rejections); in particular `rollback` right after `confirm` is a no-op —
the state, files included, is exactly the post-confirm state, so the
confirmed records are neither restored on disk nor cleared from the
ledger. -/
theorem C8_confirmed_is_final (st : LedgerState) (sess path : String) (ops : List LedgerOp)
    (h : recordStatus st sess path = some ChangeStatus.confirmed) :
    recordStatus (ops.foldl applyLedgerOp st) sess path = some ChangeStatus.confirmed ∧
      ∀ st' s', rollbackChanges (confirmChanges st' s') s' = confirmChanges st' s' :=
  ⟨runLedger_preserves_confirmed ops st sess path h,
    fun st' s' => rollback_after_confirm st' s'⟩

/-- C8 (witness): a confirmed record for path "a" survives a subsequent
rollback of its session. -/
theorem C8_confirmed_is_final_witness :
    recordStatus
        ([LedgerOp.rollback "s1"].foldl applyLedgerOp
          ⟨[⟨"s1", "a", 1, 0, ChangeStatus.confirmed, "orig"⟩], [("a", "new")]⟩)
        "s1" "a" = some ChangeStatus.confirmed :=
  (C8_confirmed_is_final ⟨[⟨"s1", "a", 1, 0, ChangeStatus.confirmed, "orig"⟩], [("a", "new")]⟩
    "s1" "a" [LedgerOp.rollback "s1"] (by decide)).1

/-- C9: `setWindowSession` for a window id with no registered
subscription entry raises no error (the function is total) and returns
the state unchanged: no entry is created, no other window's subscription
is modified, and — the state being equal — subsequent event routing is
unaffected. -/
theorem C9_setWindowSession_unregistered (st : RouterState) (w : Nat) (sid : Option String)
    (h : assocGet st.subscriptions w = none) :
    setWindowSession st w sid = st := by
  unfold setWindowSession
  rw [h]
  simp

/-- C9 (witness): subscribing the unregistered window 5 leaves the fresh
router untouched. -/
theorem C9_setWindowSession_unregistered_witness :
    setWindowSession RouterState.base 5 (some "x") = RouterState.base :=
  C9_setWindowSession_unregistered RouterState.base 5 (some "x") rfl

/-- C10: `parseSkillMd` returns a metadata record iff the input begins
with a `---`-delimited frontmatter block whose line parsing yields both a
non-empty `name` and a non-empty `description`; in every other case it
returns `null`.  In particular a successful parse forces the input to
start with the `---` delimiter. -/
theorem C10_parseSkillMd (s : String) :
    ((parseSkillMd s).isSome = true ↔
      ∃ fm, extractFrontmatter s = some fm ∧
        (parseFrontmatter fm).name ≠ "" ∧ (parseFrontmatter fm).description ≠ "") ∧
    ((parseSkillMd s).isSome = true → ∃ rest, s.data = '-' :: '-' :: '-' :: rest) := by
  have hiff : (parseSkillMd s).isSome = true ↔
      ∃ fm, extractFrontmatter s = some fm ∧
        (parseFrontmatter fm).name ≠ "" ∧ (parseFrontmatter fm).description ≠ "" := by
    unfold parseSkillMd
    rcases hfm : extractFrontmatter s with _ | fm
    · simp
    · show (if (parseFrontmatter fm).name ≠ "" ∧ (parseFrontmatter fm).description ≠ "" then
          some (parseFrontmatter fm) else none).isSome = true ↔ _
      by_cases hc : (parseFrontmatter fm).name ≠ "" ∧ (parseFrontmatter fm).description ≠ ""
      · rw [if_pos hc]
        simp [hc]
      · rw [if_neg hc]
        simp [hc]
  refine ⟨hiff, fun h => ?_⟩
  obtain ⟨fm, hfm, _⟩ := hiff.mp h
  unfold extractFrontmatter at hfm
  rcases hso : stripOpenDelim s.data with _ | r
  · rw [hso] at hfm
    simp at hfm
  · exact stripOpenDelim_shape s.data r hso

/-- C10 (witness): a well-formed SKILL.md parses successfully, and the
theorem forces it to start with the delimiter. -/
theorem C10_parseSkillMd_witness :
    ∃ rest, ("---\nname: a\ndescription: b\n---").data = '-' :: '-' :: '-' :: rest :=
  (C10_parseSkillMd "---\nname: a\ndescription: b\n---").2 (by decide)

end LocalDesk
